import Mathlib

/-!
Verification of the persistence-integrity layer of the dev-events application:
the Event pre-save validator (`eventSchema.pre("save")` in
`src/database/event.model.ts`), the slug generator `slugify`, and the Booking
pre-save validator (`bookingSchema.pre("save")` in the booking model file).

The JavaScript code is embedded shallowly: strings are Lean `String`s processed
as `List Char`, the throw-based validators become `Except`-valued functions,
and the storage engine's pre-commit contract (abort the persist on a validator
failure, leaving prior state unchanged) is modelled explicitly.
-/

namespace DevEvents

/-- Whitespace for the purposes of JavaScript `String.prototype.trim` and the
`\s` regex class, modelled on the common ASCII subset (space, tab, newline,
carriage return).  None of the validated formats involve the more exotic
Unicode whitespace code points. -/
def jsWs (c : Char) : Bool :=
  c == ' ' || c == '\t' || c == '\n' || c == '\r'

/-- JavaScript `trim` on a character list: drop whitespace from both ends. -/
def jsTrimL (l : List Char) : List Char :=
  ((l.dropWhile jsWs).reverse.dropWhile jsWs).reverse

/-- JavaScript `String.prototype.trim`. -/
def jsTrim (s : String) : String :=
  String.mk (jsTrimL s.data)

/-- Membership in the regex class `[a-z0-9]` used by `slugify`. -/
def isSlugChar (c : Char) : Bool :=
  (decide (97 ≤ c.toNat) && decide (c.toNat ≤ 122)) ||
    (decide (48 ≤ c.toNat) && decide (c.toNat ≤ 57))

/-- The regex substitution `.replace(/[^a-z0-9]+/g, "-")` from `slugify`:
every maximal run of characters outside `[a-z0-9]` becomes a single dash.
The boolean argument records whether the previous character was part of such
a run (so the run has already emitted its dash). -/
def slugCore : Bool → List Char → List Char
  | _, [] => []
  | inRun, c :: cs =>
    if isSlugChar c then c :: slugCore false cs
    else if inRun then slugCore true cs
    else '-' :: slugCore true cs

/-- The regex substitution `.replace(/^-+|-+$/g, "")` from `slugify`:
remove all leading and all trailing dashes. -/
def stripEdges (l : List Char) : List Char :=
  ((l.dropWhile (fun c => c == '-')).reverse.dropWhile (fun c => c == '-')).reverse

/-- `slugify` from `src/database/event.model.ts`: lowercase, trim, replace
runs of non-alphanumerics with a single dash, strip edge dashes.
`Char.toLower` models `toLowerCase` (ASCII; slug inputs in this development
are ASCII). -/
def slugify (value : String) : String :=
  String.mk (stripEdges (slugCore false (jsTrimL (value.data.map Char.toLower))))

/-- Dropping a prefix never lengthens a list (used for termination below). -/
theorem dropWhileLenLe {α : Type} (p : α → Bool) :
    ∀ l : List α, (l.dropWhile p).length ≤ l.length
  | [] => Nat.le_refl _
  | a :: l => by
    rw [List.dropWhile_cons]
    split
    · exact Nat.le_succ_of_le (dropWhileLenLe p l)
    · exact Nat.le_refl _

/-- The maximal runs of `[a-z0-9]` characters of a list, in order.  This is
the vocabulary in which the specification describes `slugify` ("replace every
maximal run of characters outside `[a-z0-9]` with a single `-`; strip any
leading or trailing `-`"). -/
def slugWords (l : List Char) : List (List Char) :=
  match l with
  | [] => []
  | c :: cs =>
    if isSlugChar c then
      (c :: cs.takeWhile isSlugChar) :: slugWords (cs.dropWhile isSlugChar)
    else
      slugWords cs
termination_by l.length
decreasing_by
  · simp only [List.length_cons]
    exact Nat.lt_succ_of_le (dropWhileLenLe _ _)
  · simp [Nat.lt_succ_self]

/-- Join word groups with single dashes. -/
def dashJoin : List (List Char) → List Char
  | [] => []
  | [w] => w
  | w :: ws => w ++ '-' :: dashJoin ws

/-- Whether a list ends with a character outside `[a-z0-9]`. -/
def endsNonSlug : List Char → Bool
  | [] => false
  | [c] => !isSlugChar c
  | _ :: c :: cs => endsNonSlug (c :: cs)

/-- Specification reading of `slugify`: lowercase, trim, then emit the maximal
alphanumeric runs joined by single dashes (which is exactly "replace each
non-alphanumeric run by `-`, then strip leading/trailing `-`"). -/
def slugifySpec (value : String) : String :=
  String.mk (dashJoin (slugWords (jsTrimL (value.data.map Char.toLower))))

/-- Gregorian leap-year rule. -/
def isLeap (y : Nat) : Bool :=
  (y % 4 == 0 && y % 100 != 0) || y % 400 == 0

/-- Length of a month in the proleptic Gregorian calendar. -/
def daysInMonth (y m : Nat) : Nat :=
  if m = 2 then (if isLeap y then 29 else 28)
  else if m = 4 ∨ m = 6 ∨ m = 9 ∨ m = 11 then 30 else 31

/-- Day count of a calendar date on the model timeline.  `y` is the calendar
year plus 280000, so the count (days since March 1 of proleptic-Gregorian
year -280000, the standard era-based civil counting used to model the epoch
arithmetic inside the JavaScript `Date` object) stays in `Nat` for every
date the runtime can represent, the expanded-year range included. -/
def daysFromCivilN (y m d : Nat) : Nat :=
  let yy := if m ≤ 2 then y - 1 else y
  let era := yy / 400
  let yoe := yy - era * 400
  let mp := if 2 < m then m - 3 else m + 9
  let doy := (153 * mp + 2) / 5 + d - 1
  let doe := yoe * 365 + yoe / 4 - yoe / 100 + doy
  era * 146097 + doe

/-- Inverse of `daysFromCivilN`: the (year+280000, month, day) civil date
of a day count on the model timeline. -/
def civilFromDaysN (z : Nat) : Nat × Nat × Nat :=
  let era := z / 146097
  let doe := z % 146097
  let yoe := (doe - doe / 1460 + doe / 36524 - doe / 146096) / 365
  let y := yoe + era * 400
  let doy := doe - (365 * yoe + yoe / 4 - yoe / 100)
  let mp := (5 * doy + 2) / 153
  let d := doy - (153 * mp + 2) / 5 + 1
  let m := if mp < 10 then mp + 3 else mp - 9
  (if m ≤ 2 then y + 1 else y, m, d)

/-- Membership in the regex class `\d` (= `[0-9]`). -/
def isDigitChar (c : Char) : Bool :=
  decide (48 ≤ c.toNat) && decide (c.toNat ≤ 57)

/-- The decimal digit character for `n % 10`. -/
def digitChar (n : Nat) : Char := Char.ofNat (48 + n % 10)

/-- Numeric value of a decimal digit character. -/
def digitVal (c : Char) : Nat := c.toNat - 48

/-- Two-digit zero-padded decimal, as `String.prototype.padStart(2, "0")`
produces on the 0..99 values that reach it in this code. -/
def pad2l (n : Nat) : List Char := [digitChar (n / 10), digitChar n]

/-- Four-digit zero-padded decimal (the year field of `toISOString`). -/
def pad4l (n : Nat) : List Char :=
  [digitChar (n / 1000), digitChar (n / 100), digitChar (n / 10), digitChar n]

/-- Six-digit zero-padded decimal (expanded-year field of `toISOString`). -/
def pad6l (n : Nat) : List Char :=
  [digitChar (n / 100000), digitChar (n / 10000), digitChar (n / 1000),
   digitChar (n / 100), digitChar (n / 10), digitChar n]

/-- Split a character list on `'-'` (all occurrences, keeping empty pieces),
the shape analysis used to model date-string parsing. -/
def splitDash : List Char → List (List Char)
  | [] => [[]]
  | c :: cs =>
    if c == '-' then [] :: splitDash cs
    else
      match splitDash cs with
      | [] => [[c]]
      | h :: t => (c :: h) :: t

/-- Decimal value of a digit string. -/
def digitsToNat (l : List Char) : Nat :=
  l.foldl (fun a c => 10 * a + digitVal c) 0

/-- All characters are decimal digits. -/
def allDigits (l : List Char) : Bool := l.all isDigitChar

/-- The expanded-year branch of the ECMA-262 Date Time String Format: a `+`
or `-` sign, a six-digit year, month 01..12 and day 01..31, denoting
midnight UTC with day-arithmetic rollover; `-000000` is forbidden.  The
result is the day count on the model timeline.  The time-value range of
ECMA-262 limits instants to within 100000000 days of the epoch; 1970-01-01
is model day 102987368, so the admissible window is [2987368, 202987368],
whose ends are exactly the runtime's extremes -271821-04-20 and
+275760-09-13.  A negative year beyond the model shift lies below that
window and is rejected before any day count is formed. -/
def expandedYearDate (l : List Char) : Option Nat :=
  match l with
  | [] => none
  | sign :: rest =>
    if sign == '+' || sign == '-' then
      match splitDash rest with
      | [ys, ms, ds] =>
        if allDigits ys && allDigits ms && allDigits ds then
          if ys.length = 6 ∧ ms.length = 2 ∧ ds.length = 2 ∧
              1 ≤ digitsToNat ms ∧ digitsToNat ms ≤ 12 ∧
              1 ≤ digitsToNat ds ∧ digitsToNat ds ≤ 31 ∧
              ¬(sign = '-' ∧ digitsToNat ys = 0) then
            if sign == '+' then
              if daysFromCivilN (digitsToNat ys + 280000) (digitsToNat ms)
                  (digitsToNat ds) ≤ 202987368 then
                some (daysFromCivilN (digitsToNat ys + 280000) (digitsToNat ms)
                  (digitsToNat ds))
              else none
            else
              if digitsToNat ys ≤ 280000 ∧
                  2987368 ≤ daysFromCivilN (280000 - digitsToNat ys)
                    (digitsToNat ms) (digitsToNat ds) then
                some (daysFromCivilN (280000 - digitsToNat ys) (digitsToNat ms)
                  (digitsToNat ds))
              else none
          else none
        else none
      | _ => none
    else none

/-- Model of `new Date(s).getTime()` at minute precision, on the model
timeline, for the date strings `new Date` accepts among hyphenated numeric
forms.  Per ECMA-262, a date-only string in the Date Time String Format —
`YYYY-MM-DD`, or the expanded-year form `±YYYYYY-MM-DD` — denotes midnight
UTC; its month field must read 01..12 and its day field 01..31, and the day
arithmetic rolls over (`"2025-02-29"` is March 1).  Numeric forms outside
that format such as `2025-1-5` fall back to the runtime's lenient parser
which (as in V8/Node.js) reads them as midnight LOCAL time — hence the
dependence on `tz`, the runtime's UTC offset in minutes (east of UTC
positive).  Strings in neither shape, and lenient strings that do not name
a real calendar day, give `none` (`getTime()` is NaN).  Named-month and
other runtime-specific formats never occur in this repository and are
outside the model; lenient parsing is modelled for four-digit years from
0001 upward (shorter year fields hit runtime-specific two-digit-year
remapping, equally absent here). -/
def jsDateParse (tz : Int) (s : String) : Option Int :=
  match expandedYearDate s.data with
  | some d => some ((d : Int) * 1440)
  | none =>
    match splitDash s.data with
    | [ys, ms, ds] =>
      if allDigits ys && allDigits ms && allDigits ds then
        if ys.length = 4 ∧ ms.length = 2 ∧ ds.length = 2 then
          if 1 ≤ digitsToNat ms ∧ digitsToNat ms ≤ 12 ∧ 1 ≤ digitsToNat ds ∧
              digitsToNat ds ≤ 31 then
            some ((daysFromCivilN (digitsToNat ys + 280000) (digitsToNat ms)
              (digitsToNat ds) : Int) * 1440)
          else none
        else if ys.length = 4 ∧ 1 ≤ ms.length ∧ ms.length ≤ 2 ∧
            1 ≤ ds.length ∧ ds.length ≤ 2 then
          if 1 ≤ digitsToNat ys ∧ 1 ≤ digitsToNat ms ∧ digitsToNat ms ≤ 12 ∧
              1 ≤ digitsToNat ds ∧
              digitsToNat ds ≤ daysInMonth (digitsToNat ys) (digitsToNat ms) then
            some ((daysFromCivilN (digitsToNat ys + 280000) (digitsToNat ms)
              (digitsToNat ds) : Int) * 1440 - tz)
          else none
        else none
      else none
    | _ => none

/-- The unsigned hyphenated all-digit date shape `digits-digits-digits` —
the shape of every date input the specification contemplates.  An
expanded-year input carries a sign, so it never has this shape. -/
def plainDateShape (s : String) : Bool :=
  match splitDash s.data with
  | [ys, ms, ds] => allDigits ys && allDigits ms && allDigits ds
  | _ => false

/-- Model of `parsedDate.toISOString().slice(0, 10)`: the UTC calendar date
of the instant, zero-padded `YYYY-MM-DD` for years 0..9999.  For years
outside that range `toISOString` uses the six-digit expanded form, of which
`slice(0, 10)` keeps the sign, the year and the month — this is where an
expanded-year input lands.  The divisor
1440 is positive, so `Int.ediv` is the floor division performed by the
epoch-day arithmetic (division on `Int` is Euclidean division, which floors
for a positive divisor); `toNat` is exact on every reachable (non-negative)
value. -/
def toISODate (utcMin : Int) : String :=
  let ud := (utcMin / 1440).toNat
  let c := civilFromDaysN ud
  let y : Int := (c.1 : Int) - 280000
  if 0 ≤ y ∧ y ≤ 9999 then
    String.mk (pad4l y.toNat ++ '-' :: pad2l c.2.1 ++ '-' :: pad2l c.2.2)
  else
    String.mk (((if y < 0 then ['-'] else ['+']) ++ pad6l y.natAbs ++
      '-' :: pad2l c.2.1 ++ '-' :: pad2l c.2.2).take 10)

/-- Model of `time.match(/^(\d{1,2}):(\d{2})$/)` followed by `Number(...)` on
the two capture groups: the hour and minute values, or `none` when the regex
does not match. -/
def timeMatch (s : String) : Option (Nat × Nat) :=
  match s.data with
  | [h1, c, m1, m2] =>
    if c == ':' && isDigitChar h1 && isDigitChar m1 && isDigitChar m2 then
      some (digitVal h1, 10 * digitVal m1 + digitVal m2)
    else none
  | [h1, h2, c, m1, m2] =>
    if c == ':' && isDigitChar h1 && isDigitChar h2 && isDigitChar m1 && isDigitChar m2 then
      some (10 * digitVal h1 + digitVal h2, 10 * digitVal m1 + digitVal m2)
    else none
  | _ => none

/-- The stored time text: `hours.toString().padStart(2, "0") + ":" +
minutes.toString().padStart(2, "0")` (values here are at most 59). -/
def timeString (h m : Nat) : String :=
  String.mk (pad2l h ++ ':' :: pad2l m)

/-- `value.trim().length === 0` from `assertNonEmptyString`; in the typed
model every field is a string, so the `typeof` disjunct cannot fire. -/
def nonBlank (s : String) : Bool := !(jsTrimL s.data).isEmpty

/-- `assertNonEmptyStringArray` passes: a non-empty array with no blank
entries (in the typed model the value is always an array of strings). -/
def goodArray (a : List String) : Bool := !a.isEmpty && a.all nonBlank

/-- JavaScript truthiness of `this.slug`: an absent slug and the empty
string are both falsy. -/
def slugFalsy : Option String → Bool
  | none => true
  | some s => s.data.isEmpty

/-- Failure taxonomy of the Event validator (the distinct `throw new Error`
sites of the pre-save hook, classified as in the specification). -/
inductive EventErr where
  | missingField (fieldName : String)
  | invalidArrayField (fieldName : String)
  | invalidDate
  | invalidTime
deriving DecidableEq, Repr

/-- The Event document fields the pre-save hook reads and writes.  `slug` is
`Option`al (it has no `required` flag and is absent until generated). -/
structure EventRecord where
  title : String
  slug : Option String
  description : String
  overview : String
  image : String
  venue : String
  location : String
  date : String
  time : String
  mode : String
  audience : String
  agenda : List String
  organizer : String
  tags : List String
deriving DecidableEq, Repr

/-- `assertNonEmptyString` from `src/database/event.model.ts`: throw
`MissingField` when the value is blank. -/
def assertNonEmptyString (value : String) (fieldName : String) :
    Except EventErr Unit :=
  if nonBlank value then .ok () else .error (.missingField fieldName)

/-- `assertNonEmptyStringArray`: throw `InvalidArrayField` when the array is
empty or has a blank entry. -/
def assertNonEmptyStringArray (value : List String) (fieldName : String) :
    Except EventErr Unit :=
  if goodArray value then .ok () else .error (.invalidArrayField fieldName)

/-- The required-field assertion block of the pre-save hook, in source
order. -/
def checkEventFields (r : EventRecord) : Except EventErr Unit := do
  assertNonEmptyString r.title "title"
  assertNonEmptyString r.description "description"
  assertNonEmptyString r.overview "overview"
  assertNonEmptyString r.image "image"
  assertNonEmptyString r.venue "venue"
  assertNonEmptyString r.location "location"
  assertNonEmptyString r.date "date"
  assertNonEmptyString r.time "time"
  assertNonEmptyString r.mode "mode"
  assertNonEmptyString r.audience "audience"
  assertNonEmptyString r.organizer "organizer"
  assertNonEmptyStringArray r.agenda "agenda"
  assertNonEmptyStringArray r.tags "tags"

/-- Date normalization step of the pre-save hook: parse `this.date`, abort
with `InvalidDate` on failure, else overwrite with the canonical text. -/
def normalizeDate (tz : Int) (r : EventRecord) : Except EventErr EventRecord :=
  match jsDateParse tz r.date with
  | none => .error .invalidDate
  | some pd => .ok { r with date := toISODate pd }

/-- Time normalization step of the pre-save hook: trim, match the regex,
range-check hour and minute, overwrite with the zero-padded text.  The
source's `hours < 0 || minutes < 0` disjuncts are vacuous because the regex
captures are digit strings. -/
def normalizeTime (r : EventRecord) : Except EventErr EventRecord :=
  match timeMatch (jsTrim r.time) with
  | none => .error .invalidTime
  | some hm =>
    if 23 < hm.1 ∨ 59 < hm.2 then .error .invalidTime
    else .ok { r with time := timeString hm.1 hm.2 }

/-- Slug generation step: recompute the slug exactly when the title was
modified in this write (`this.isModified("title")`) or `this.slug` is falsy
(absent or the empty string). -/
def updateSlug (titleModified : Bool) (r : EventRecord) : EventRecord :=
  if titleModified || slugFalsy r.slug then
    { r with slug := some (slugify r.title) }
  else r

/-- The Event pre-save hook of `src/database/event.model.ts`, step for step:
required-field assertions in source order, date normalization, time
normalization, slug generation.  `titleModified` is the hook's
`this.isModified("title")`; `tz` is the runtime's UTC offset consumed by the
date model. -/
def preSave (tz : Int) (titleModified : Bool) (r : EventRecord) :
    Except EventErr EventRecord := do
  checkEventFields r
  let r1 ← normalizeDate tz r
  let r2 ← normalizeTime r1
  .ok (updateSlug titleModified r2)

/-- The storage engine's pre-commit contract for an Event write (spec §6):
the durable state becomes the normalized record on validator success and is
left exactly as it was on validator failure. -/
def commitEvent (st : Option EventRecord) (tz : Int) (titleModified : Bool)
    (r : EventRecord) : Option EventRecord :=
  match preSave tz titleModified r with
  | .ok r' => some r'
  | .error _ => st

/-- The slug stored by a successful Event write, `none` when the write is
aborted. -/
def slugAfter (tz : Int) (titleModified : Bool) (r : EventRecord) :
    Option (Option String) :=
  match preSave tz titleModified r with
  | .ok r' => some r'.slug
  | .error _ => none

/-- The date stored by a successful Event write, `none` when the write is
aborted. -/
def dateAfter (tz : Int) (titleModified : Bool) (r : EventRecord) :
    Option String :=
  match preSave tz titleModified r with
  | .ok r' => some r'.date
  | .error _ => none

/-- The time stored by a successful Event write, `none` when the write is
aborted. -/
def timeAfter (tz : Int) (titleModified : Bool) (r : EventRecord) :
    Option String :=
  match preSave tz titleModified r with
  | .ok r' => some r'.time
  | .error _ => none

/-- The error stored by a failed Event write, `none` when the write commits. -/
def eventErrAfter (tz : Int) (titleModified : Bool) (r : EventRecord) :
    Option EventErr :=
  match preSave tz titleModified r with
  | .ok _ => none
  | .error e => some e

/-- Failure taxonomy of the Booking validator. -/
inductive BookingErr where
  | missingField (fieldName : String)
  | invalidEmail
  | danglingReference (fieldName : String)
deriving DecidableEq, Repr

/-- The Booking document fields the pre-save hook reads.  The `ObjectId`
reference is modelled as a `Nat` identifier; `none` is an absent (falsy)
`eventId`. -/
structure BookingRecord where
  eventId : Option Nat
  email : String
deriving DecidableEq, Repr

/-- Split at the unique `'@'`: `some (localPart, domainPart)` when the list
contains exactly one `'@'`, `none` otherwise.  (A string with zero or with
several `'@'` characters cannot match the email regex, whose character
classes all exclude `'@'`.) -/
def splitAtSign : List Char → Option (List Char × List Char)
  | [] => none
  | c :: cs =>
    if c == '@' then
      if cs.contains '@' then none else some ([], cs)
    else
      match splitAtSign cs with
      | some (l, r) => some (c :: l, r)
      | none => none

/-- Whether a list contains a `'.'` that is neither its first nor its last
element — exactly when it factors as `[^\s@]+ "." [^\s@]+` does on its dots. -/
def hasInnerDot : List Char → Bool
  | [] => false
  | [_] => false
  | _ :: c :: cs => (c == '.' && !cs.isEmpty) || hasInnerDot (c :: cs)

/-- `isValidEmail` from the booking model: the test of
`/^[^\s@]+@[^\s@]+\.[^\s@]+$/`.  The string matches exactly when it has one
`'@'`, a non-empty whitespace-free local part, and a whitespace-free domain
part containing an inner dot. -/
def isValidEmail (s : String) : Bool :=
  match splitAtSign s.data with
  | some (loc, dom) =>
    !loc.isEmpty && loc.all (fun c => !jsWs c) &&
      dom.all (fun c => !jsWs c) && hasInnerDot dom
  | none => false

/-- The mongoose path options on `Booking.email` (`trim: true`,
`lowercase: true`): setters that run when the field is assigned, so the
pre-save hook always sees the trimmed, lowercased value. -/
def applySetters (r : BookingRecord) : BookingRecord :=
  { r with email := String.mk ((jsTrimL r.email.data).map Char.toLower) }

/-- The Booking pre-save hook of the booking model, line for line: `eventId`
presence, `email` non-blank, `email` format, then the referential
`Event.exists` query, modelled as the boolean oracle `ex` on identifiers. -/
def bookingPreSave (ex : Nat → Bool) (r : BookingRecord) :
    Except BookingErr BookingRecord :=
  match r.eventId with
  | none => .error (.missingField "eventId")
  | some eid =>
    if !nonBlank r.email then .error (.missingField "email")
    else if !isValidEmail r.email then .error .invalidEmail
    else if !ex eid then .error (.danglingReference "eventId")
    else .ok r

/-- A Booking write as the storage engine runs it: path setters on
assignment, then the pre-save hook. -/
def bookingSave (ex : Nat → Bool) (r : BookingRecord) :
    Except BookingErr BookingRecord :=
  bookingPreSave ex (applySetters r)

/-- The storage engine's pre-commit contract for a Booking write: the
durable state becomes the validated record on success and is untouched on
failure. -/
def commitBooking (st : Option BookingRecord) (ex : Nat → Bool)
    (r : BookingRecord) : Option BookingRecord :=
  match bookingSave ex r with
  | .ok b => some b
  | .error _ => st

/-- The email stored by a successful Booking write. -/
def emailAfter (ex : Nat → Bool) (r : BookingRecord) : Option String :=
  match bookingSave ex r with
  | .ok b => some b.email
  | .error _ => none

/-- The error produced by a failed Booking write. -/
def bookingErrAfter (ex : Nat → Bool) (r : BookingRecord) : Option BookingErr :=
  match bookingSave ex r with
  | .ok _ => none
  | .error e => some e

/-- The invariant format `^\d{4}-\d{2}-\d{2}$` for stored dates. -/
def dateFormatOk (s : String) : Bool :=
  match s.data with
  | [a, b, c, d, e, f, g, h, i, j] =>
    isDigitChar a && isDigitChar b && isDigitChar c && isDigitChar d && e == '-' &&
      isDigitChar f && isDigitChar g && h == '-' && isDigitChar i && isDigitChar j
  | _ => false

/-- The invariant format `^\d{2}:\d{2}$` with hour at most 23 and minute at
most 59 for stored times. -/
def timeFormatOk (s : String) : Bool :=
  match s.data with
  | [a, b, c, d, e] =>
    isDigitChar a && isDigitChar b && c == ':' && isDigitChar d && isDigitChar e &&
      decide (10 * digitVal a + digitVal b ≤ 23) &&
      decide (10 * digitVal d + digitVal e ≤ 59)
  | _ => false

/-- A fully valid Event record, the base for the concrete instantiations. -/
def baseEvent : EventRecord :=
  { title := "My Event", slug := none, description := "A description",
    overview := "An overview", image := "img.png", venue := "Main Hall",
    location := "Berlin", date := "2025-01-05", time := "9:05",
    mode := "in-person", audience := "everyone", agenda := ["intro"],
    organizer := "ACME", tags := ["tech"] }

/-- An `[a-z0-9]` character is not a dash. -/
theorem slugCharNeDash {c : Char} (h : isSlugChar c = true) : (c == '-') = false := by
  cases hc : c == '-'
  · rfl
  · exfalso
    have hcd : c = '-' := by exact beq_iff_eq.mp hc
    subst hcd
    exact absurd h (by decide)

/-- The single dash the run substitution emits when the list opens with a
non-alphanumeric run. -/
def dashHead : List Char → List Char
  | [] => []
  | c :: _ => if isSlugChar c then [] else ['-']

/-- The single dash the run substitution emits after the final word when the
list closes with a non-alphanumeric run. -/
def dashTail (l : List Char) : List Char :=
  if !(slugWords l).isEmpty && endsNonSlug l then ['-'] else []

/-- Starting outside a run differs from starting inside one only by the dash
of the opening non-alphanumeric run. -/
theorem slugCoreFalseEq (l : List Char) :
    slugCore false l = dashHead l ++ slugCore true l := by
  cases l with
  | nil => rfl
  | cons c cs =>
    by_cases h : isSlugChar c = true
    · simp [slugCore, dashHead, h]
    · have h' : isSlugChar c = false := by
        revert h; cases isSlugChar c <;> simp
      simp [slugCore, dashHead, h']

/-- A list has no alphanumeric runs exactly when all its characters are
non-alphanumeric. -/
theorem slugWordsNilIff (l : List Char) :
    slugWords l = [] ↔ ∀ c ∈ l, isSlugChar c = false := by
  induction l with
  | nil => simp [slugWords]
  | cons c cs ih =>
    by_cases h : isSlugChar c = true
    · simp [slugWords, h]
    · have h' : isSlugChar c = false := by
        revert h; cases isSlugChar c <;> simp
      simp [slugWords, h', ih]

/-- A non-empty all-non-alphanumeric list ends with a non-alphanumeric
character. -/
theorem endsNonSlugOfAll :
    ∀ l : List Char, l ≠ [] → (∀ c ∈ l, isSlugChar c = false) →
      endsNonSlug l = true
  | [], hne, _ => absurd rfl hne
  | [c], _, h => by simp [endsNonSlug, h c (by simp)]
  | _ :: d :: ds, _, h => by
    have := endsNonSlugOfAll (d :: ds) (by simp)
      (fun x hx => h x (by simp [hx]))
    simpa [endsNonSlug] using this

/-- Peeling the head character off the first word commutes with joining. -/
theorem dashJoinConsHead (c : Char) (w : List Char) (ws : List (List Char)) :
    dashJoin ((c :: w) :: ws) = c :: dashJoin (w :: ws) := by
  cases ws <;> simp [dashJoin]

/-- Inside a run, the substitution produces exactly the alphanumeric words
joined by single dashes, plus one closing dash when the list ends in a
non-alphanumeric run after at least one word. -/
theorem slugCoreTrueEq (l : List Char) :
    slugCore true l = dashJoin (slugWords l) ++ dashTail l := by
  induction l with
  | nil => simp [slugCore, slugWords, dashTail, dashJoin]
  | cons c cs ih =>
    by_cases hc : isSlugChar c = true
    · cases cs with
      | nil => simp [slugCore, slugWords, dashJoin, dashTail, endsNonSlug, hc]
      | cons d ds =>
        by_cases hd : isSlugChar d = true
        · rw [show slugCore true (c :: d :: ds) = c :: slugCore false (d :: ds) by
            simp [slugCore, hc]]
          rw [slugCoreFalseEq, show dashHead (d :: ds) = [] by simp [dashHead, hd]]
          rw [List.nil_append, ih]
          rw [show slugWords (c :: d :: ds) =
            (c :: d :: ds.takeWhile isSlugChar) :: slugWords (ds.dropWhile isSlugChar) by
            simp [slugWords, hc, hd]]
          rw [show slugWords (d :: ds) =
            (d :: ds.takeWhile isSlugChar) :: slugWords (ds.dropWhile isSlugChar) by
            simp [slugWords, hd]]
          rw [dashJoinConsHead]
          rw [show dashTail (c :: d :: ds) = dashTail (d :: ds) by
            simp [dashTail, slugWords, hc, hd, endsNonSlug]]
          simp [dashJoinConsHead]
        · have hd' : isSlugChar d = false := by
            revert hd; cases isSlugChar d <;> simp
          rw [show slugCore true (c :: d :: ds) = c :: slugCore false (d :: ds) by
            simp [slugCore, hc]]
          rw [slugCoreFalseEq, show dashHead (d :: ds) = ['-'] by simp [dashHead, hd']]
          rw [ih]
          rw [show slugWords (c :: d :: ds) = [c] :: slugWords (d :: ds) by
            simp [slugWords, hc, hd']]
          cases hW : slugWords (d :: ds) with
          | nil =>
            have hall : ∀ x ∈ d :: ds, isSlugChar x = false :=
              (slugWordsNilIff (d :: ds)).mp hW
            have hend : endsNonSlug (d :: ds) = true :=
              endsNonSlugOfAll (d :: ds) (by simp) hall
            simp [dashJoin, dashTail, hW, endsNonSlug, hend, slugWords, hc, hd']
          | cons w ws =>
            rw [show dashJoin ([c] :: w :: ws) = c :: '-' :: dashJoin (w :: ws) by
              simp [dashJoin]]
            rw [show dashTail (c :: d :: ds) = dashTail (d :: ds) by
              simp [dashTail, slugWords, hc, hd', endsNonSlug, hW]]
            simp [dashTail, hW]
    · have hc' : isSlugChar c = false := by
        revert hc; cases isSlugChar c <;> simp
      cases cs with
      | nil => simp [slugCore, slugWords, dashJoin, dashTail, endsNonSlug, hc']
      | cons d ds =>
        rw [show slugCore true (c :: d :: ds) = slugCore true (d :: ds) by
          simp [slugCore, hc']]
        rw [ih]
        rw [show slugWords (c :: d :: ds) = slugWords (d :: ds) by
          simp [slugWords, hc']]
        rw [show dashTail (c :: d :: ds) = dashTail (d :: ds) by
          simp [dashTail, slugWords, hc', endsNonSlug]]

/-- Elements of a `takeWhile` prefix satisfy the predicate. -/
theorem memTakeWhile {p : Char → Bool} :
    ∀ {l : List Char} {a : Char}, a ∈ l.takeWhile p → p a = true
  | [], _, h => by cases h
  | c :: cs, a, h => by
    rw [List.takeWhile_cons] at h
    split at h
    · rcases List.mem_cons.mp h with rfl | h'
      · assumption
      · exact memTakeWhile h'
    · cases h

/-- Every alphanumeric run is non-empty and consists of `[a-z0-9]`
characters. -/
theorem slugWordsChars :
    ∀ (l : List Char) (w : List Char), w ∈ slugWords l →
      w ≠ [] ∧ ∀ c ∈ w, isSlugChar c = true
  | [], w, hw => by simp [slugWords] at hw
  | c :: cs, w, hw => by
    by_cases hc : isSlugChar c = true
    · rw [show slugWords (c :: cs) =
        (c :: cs.takeWhile isSlugChar) :: slugWords (cs.dropWhile isSlugChar) by
        simp [slugWords, hc]] at hw
      rcases List.mem_cons.mp hw with rfl | hw'
      · refine ⟨by simp, ?_⟩
        intro x hx
        rcases List.mem_cons.mp hx with rfl | hx'
        · exact hc
        · exact memTakeWhile hx'
      · exact slugWordsChars (cs.dropWhile isSlugChar) w hw'
    · have hc' : isSlugChar c = false := by
        revert hc; cases isSlugChar c <;> simp
      rw [show slugWords (c :: cs) = slugWords cs by simp [slugWords, hc']] at hw
      exact slugWordsChars cs w hw
termination_by l => l.length
decreasing_by
  · simp only [List.length_cons]
    exact Nat.lt_succ_of_le (dropWhileLenLe _ _)
  · simp [Nat.lt_succ_self]

/-- The reversal of a dash-join of non-empty alphanumeric words starts with
an alphanumeric character. -/
theorem dashJoinRevHead :
    ∀ (ws : List (List Char)) (w : List Char), w ≠ [] →
      (∀ c ∈ w, isSlugChar c = true) →
      (∀ v ∈ ws, v ≠ [] ∧ ∀ c ∈ v, isSlugChar c = true) →
      ∃ h t, (dashJoin (w :: ws)).reverse = h :: t ∧ isSlugChar h = true
  | [], w, hne, hall, _ => by
    rw [show dashJoin [w] = w from rfl]
    cases hr : w.reverse with
    | nil => exact absurd (by simpa using hr) hne
    | cons h t =>
      refine ⟨h, t, rfl, hall h ?_⟩
      have : h ∈ w.reverse := by simp [hr]
      simpa using this
  | v :: vs, w, _, _, hws => by
    obtain ⟨h, t, hrev, hslug⟩ :=
      dashJoinRevHead vs v (hws v (by simp)).1 (hws v (by simp)).2
        (fun u hu => hws u (by simp [hu]))
    refine ⟨h, t ++ '-' :: w.reverse, ?_, hslug⟩
    rw [show dashJoin (w :: v :: vs) = w ++ '-' :: dashJoin (v :: vs) from rfl]
    rw [List.reverse_append, List.reverse_cons, List.append_assoc, hrev]
    simp

/-- Stripping edge dashes undoes exactly the opening and closing dashes the
run substitution may have emitted, leaving the dash-joined words. -/
theorem stripEdgesEq (l : List Char) :
    stripEdges (dashHead l ++ (dashJoin (slugWords l) ++ dashTail l)) =
      dashJoin (slugWords l) := by
  cases hW : slugWords l with
  | nil =>
    have htail : dashTail l = [] := by simp [dashTail, hW]
    rw [htail, show dashJoin ([] : List (List Char)) = [] from rfl]
    cases l with
    | nil => rfl
    | cons c cs =>
      by_cases hc : isSlugChar c = true
      · rw [show dashHead (c :: cs) = [] by simp [dashHead, hc]]; rfl
      · have hc' : isSlugChar c = false := by
          revert hc; cases isSlugChar c <;> simp
        rw [show dashHead (c :: cs) = ['-'] by simp [dashHead, hc']]; rfl
  | cons w ws =>
    obtain ⟨hne, hall⟩ := slugWordsChars l w (by simp [hW])
    obtain ⟨a, w', rfl⟩ : ∃ a w', w = a :: w' := by
      cases w with
      | nil => exact absurd rfl hne
      | cons a w' => exact ⟨a, w', rfl⟩
    have ha : isSlugChar a = true := hall a (by simp)
    obtain ⟨rh, rt, hrev, hrslug⟩ :=
      dashJoinRevHead ws (a :: w') hne hall
        (fun v hv => slugWordsChars l v (by simp [hW, hv]))
    have hJ : dashJoin ((a :: w') :: ws) = a :: dashJoin (w' :: ws) :=
      dashJoinConsHead a w' ws
    have hstep1 :
        (dashHead l ++ (dashJoin ((a :: w') :: ws) ++ dashTail l)).dropWhile
            (fun c => c == '-') =
          dashJoin ((a :: w') :: ws) ++ dashTail l := by
      have hkeep :
          (dashJoin ((a :: w') :: ws) ++ dashTail l).dropWhile
              (fun c => c == '-') =
            dashJoin ((a :: w') :: ws) ++ dashTail l := by
        rw [hJ, List.cons_append, List.dropWhile_cons_of_neg]
        simp [slugCharNeDash ha]
      cases l with
      | nil =>
        rw [show dashHead ([] : List Char) = [] from rfl, List.nil_append]
        exact hkeep
      | cons c cs =>
        by_cases hc : isSlugChar c = true
        · rw [show dashHead (c :: cs) = [] by simp [dashHead, hc], List.nil_append]
          exact hkeep
        · have hc' : isSlugChar c = false := by
            revert hc; cases isSlugChar c <;> simp
          rw [show dashHead (c :: cs) = ['-'] by simp [dashHead, hc']]
          rw [List.cons_append, List.dropWhile_cons_of_pos (by rfl)]
          exact hkeep
    have hstep2 :
        ((dashJoin ((a :: w') :: ws) ++ dashTail l).reverse.dropWhile
            (fun c => c == '-')).reverse =
          dashJoin ((a :: w') :: ws) := by
      have hrevkeep :
          (dashJoin ((a :: w') :: ws)).reverse.dropWhile (fun c => c == '-') =
            (dashJoin ((a :: w') :: ws)).reverse := by
        rw [hrev, List.dropWhile_cons_of_neg]
        simp [slugCharNeDash hrslug]
      by_cases htail : (!(slugWords l).isEmpty && endsNonSlug l) = true
      · rw [show dashTail l = ['-'] by simp only [dashTail]; rw [if_pos htail]]
        rw [List.reverse_append]
        rw [show (['-'] : List Char).reverse = ['-'] from rfl]
        rw [List.cons_append, List.dropWhile_cons_of_pos (by rfl)]
        rw [List.nil_append, hrevkeep, List.reverse_reverse]
      · rw [show dashTail l = [] by simp only [dashTail]; rw [if_neg htail]]
        rw [List.append_nil, hrevkeep, List.reverse_reverse]
    simp only [stripEdges]
    rw [hstep1]
    exact hstep2

/-- Digit characters pass the digit class test. -/
theorem digitCharIsDigit (n : Nat) : isDigitChar (digitChar n) = true := by
  unfold digitChar
  have h : n % 10 < 10 := Nat.mod_lt n (by omega)
  generalize hk : n % 10 = k
  rw [hk] at h
  interval_cases k <;> decide

/-- Digit characters round-trip to their value. -/
theorem digitValChar (n : Nat) : digitVal (digitChar n) = n % 10 := by
  unfold digitChar digitVal
  have h : n % 10 < 10 := Nat.mod_lt n (by omega)
  generalize hk : n % 10 = k
  rw [hk] at h
  interval_cases k <;> decide

/-- A digit character is worth at most nine. -/
theorem digitValLe {c : Char} (h : isDigitChar c = true) : digitVal c ≤ 9 := by
  simp only [isDigitChar, Bool.and_eq_true, decide_eq_true_eq] at h
  unfold digitVal
  omega

/-- The normalized time text always satisfies the stored-time invariant. -/
theorem timeFormatOkTimeString {h m : Nat} (hh : h ≤ 23) (hm : m ≤ 59) :
    timeFormatOk (timeString h m) = true := by
  show timeFormatOk (String.mk
    [digitChar (h / 10), digitChar h, ':', digitChar (m / 10), digitChar m]) = true
  simp only [timeFormatOk, digitCharIsDigit, digitValChar, Bool.and_eq_true,
    decide_eq_true_eq, beq_self_eq_true, and_true, true_and]
  omega

/-- Inversion of a successful `Except` bind. -/
theorem exceptBindOk {ε α β : Type} {x : Except ε α} {f : α → Except ε β}
    {b : β} (h : (x >>= f) = .ok b) : ∃ a, x = .ok a ∧ f a = .ok b := by
  cases x with
  | ok a => exact ⟨a, rfl, h⟩
  | error e => simp [Bind.bind, Except.bind] at h

/-- Inversion of a successful date normalization. -/
theorem normalizeDateOkInv {tz : Int} {r r1 : EventRecord}
    (h : normalizeDate tz r = .ok r1) :
    ∃ pd, jsDateParse tz r.date = some pd ∧
      r1 = { r with date := toISODate pd } := by
  unfold normalizeDate at h
  split at h
  · exact Except.noConfusion h
  · rename_i pd hpd
    injection h with h
    exact ⟨pd, hpd, h.symm⟩

/-- Inversion of a successful time normalization. -/
theorem normalizeTimeOkInv {r r2 : EventRecord}
    (h : normalizeTime r = .ok r2) :
    ∃ hh mm, timeMatch (jsTrim r.time) = some (hh, mm) ∧ hh ≤ 23 ∧ mm ≤ 59 ∧
      r2 = { r with time := timeString hh mm } := by
  unfold normalizeTime at h
  split at h
  · exact Except.noConfusion h
  · rename_i hm htm
    split at h
    · exact Except.noConfusion h
    · rename_i hrange
      injection h with h
      exact ⟨hm.1, hm.2, by simpa using htm, by omega, by omega, h.symm⟩

/-- The slug generation step changes no field but the slug. -/
theorem updateSlugDate (tm : Bool) (r : EventRecord) :
    (updateSlug tm r).date = r.date := by
  unfold updateSlug; split <;> rfl

/-- The slug generation step changes no field but the slug. -/
theorem updateSlugTime (tm : Bool) (r : EventRecord) :
    (updateSlug tm r).time = r.time := by
  unfold updateSlug; split <;> rfl

/-- The slug generation step changes no field but the slug. -/
theorem updateSlugTitle (tm : Bool) (r : EventRecord) :
    (updateSlug tm r).title = r.title := by
  unfold updateSlug; split <;> rfl

/-- The slug after the slug generation step, as a conditional. -/
theorem updateSlugSlug (tm : Bool) (r : EventRecord) :
    (updateSlug tm r).slug =
      if (tm || slugFalsy r.slug) = true then some (slugify r.title)
      else r.slug := by
  unfold updateSlug
  split <;> rfl

/-- Inversion of a successful Event validation: the date parsed, the time
matched within range, and the stored record is the input with normalized
`date` and `time` and with the slug recomputed exactly when the title was
modified or the slug was absent or empty. -/
theorem preSaveOkInv {tz : Int} {tm : Bool} {r r' : EventRecord}
    (hok : preSave tz tm r = .ok r') :
    ∃ pd h m, jsDateParse tz r.date = some pd ∧
      timeMatch (jsTrim r.time) = some (h, m) ∧ h ≤ 23 ∧ m ≤ 59 ∧
      r'.date = toISODate pd ∧ r'.time = timeString h m ∧
      r'.slug = (if (tm || slugFalsy r.slug) = true
        then some (slugify r.title) else r.slug) ∧
      r'.title = r.title := by
  unfold preSave at hok
  obtain ⟨u, hchk, hok⟩ := exceptBindOk hok
  obtain ⟨r1, hr1, hok⟩ := exceptBindOk hok
  obtain ⟨r2, hr2, hok⟩ := exceptBindOk hok
  injection hok with hok
  obtain ⟨pd, hpd, hr1e⟩ := normalizeDateOkInv hr1
  subst hr1e
  obtain ⟨hh, mm, htm, hhle, hmle, hr2e⟩ := normalizeTimeOkInv hr2
  subst hr2e
  subst hok
  exact ⟨pd, hh, mm, hpd, by simpa using htm, hhle, hmle,
    updateSlugDate tm _, updateSlugTime tm _, updateSlugSlug tm _,
    updateSlugTitle tm _⟩

/-- Folding digits from accumulator `a` stays below `(a + 1) * 10 ^ length`. -/
theorem digitsToNatAux :
    ∀ (l : List Char) (a : Nat), allDigits l = true →
      l.foldl (fun a c => 10 * a + digitVal c) a < (a + 1) * 10 ^ l.length
  | [], a, _ => by simp
  | c :: cs, a, h => by
    rw [List.foldl_cons]
    have hc : isDigitChar c = true ∧ allDigits cs = true := by
      simpa [allDigits] using h
    have hv : digitVal c ≤ 9 := digitValLe hc.1
    have ih := digitsToNatAux cs (10 * a + digitVal c) hc.2
    have hle : (10 * a + digitVal c + 1) * 10 ^ cs.length ≤
        (a + 1) * 10 ^ (c :: cs).length := by
      rw [List.length_cons, pow_succ]
      have hstep : 10 * a + digitVal c + 1 ≤ (a + 1) * 10 := by omega
      calc (10 * a + digitVal c + 1) * 10 ^ cs.length
          ≤ ((a + 1) * 10) * 10 ^ cs.length := Nat.mul_le_mul_right _ hstep
        _ = (a + 1) * (10 ^ cs.length * 10) := by ring
    exact lt_of_lt_of_le ih hle

/-- A four-digit string denotes at most 9999. -/
theorem digitsToNatLe9999 {l : List Char} (hd : allDigits l = true)
    (hl : l.length = 4) : digitsToNat l ≤ 9999 := by
  have h := digitsToNatAux l 0 hd
  rw [hl] at h
  norm_num at h
  unfold digitsToNat
  omega

/-- Every month is at most 31 days long. -/
theorem daysInMonthLe31 (y m : Nat) : daysInMonth y m ≤ 31 := by
  unfold daysInMonth
  split_ifs <;> omega

/-- Day-count bounds for the unsigned four-digit dates the parser accepts:
every date with year 0..9999 (day field up to 31, with rollover) lands in
`[102267840, 105920264]` on the model timeline, and from year 1 on in
`[102268206, 105920264]`. -/
theorem daysFromCivilNBounds (y m d : Nat) (hy : y ≤ 9999) (hm1 : 1 ≤ m)
    (hm2 : m ≤ 12) (hd1 : 1 ≤ d) (hd2 : d ≤ 31) :
    102267840 ≤ daysFromCivilN (y + 280000) m d ∧
      daysFromCivilN (y + 280000) m d ≤ 105920264 ∧
      (1 ≤ y → 102268206 ≤ daysFromCivilN (y + 280000) m d) := by
  interval_cases m <;> simp [daysFromCivilN] <;> omega

/-- The civil year of any day count in the plain-shape band stays between
the shifted years 280000 and 289999 (calendar years 0 and 9999). -/
theorem civilYearBounds (z : Nat) (h1 : 102267840 ≤ z) (h2 : z ≤ 105920264) :
    280000 ≤ (civilFromDaysN z).1 ∧ (civilFromDaysN z).1 ≤ 289999 := by
  constructor
  · rcases Nat.lt_or_ge z 102267900 with hz | hz
    · interval_cases z <;> decide
    · simp only [civilFromDaysN]
      split_ifs <;> omega
  · rcases Nat.lt_or_ge z 105774228 with hz | hz
    · simp only [civilFromDaysN]
      split_ifs <;> omega
    · simp only [civilFromDaysN]
      split_ifs <;> omega

/-- An expanded-year input never has the unsigned all-digit shape. -/
theorem expandedYearNotPlain {s : String} {d : Nat}
    (h : expandedYearDate s.data = some d) : plainDateShape s = false := by
  unfold expandedYearDate at h
  split at h
  · exact Option.noConfusion h
  · rename_i sign rest heq
    split at h <;> try exact Option.noConfusion h
    rename_i hsign
    split at h <;> try exact Option.noConfusion h
    rename_i ys ms ds hsplit
    split at h <;> try exact Option.noConfusion h
    rename_i hdig
    unfold plainDateShape
    rw [heq]
    by_cases hminus : sign = '-'
    · subst hminus
      rw [show splitDash ('-' :: rest) = [] :: splitDash rest by
        simp [splitDash]]
      rw [hsplit]
    · have hplus : sign = '+' := by
        rcases Bool.or_eq_true_iff.mp hsign with hp | hm
        · exact beq_iff_eq.mp hp
        · exact absurd (beq_iff_eq.mp hm) hminus
      subst hplus
      rw [show splitDash ('+' :: rest) =
          (match splitDash rest with
            | [] => [['+']]
            | h :: t => ('+' :: h) :: t) by simp [splitDash]]
      rw [hsplit]
      show (allDigits ('+' :: ys) && allDigits ms && allDigits ds) = false
      simp [allDigits, isDigitChar]

/-- Under a real-world UTC offset, every instant the date parser returns for
an unsigned all-digit date string falls on a day in the plain-shape band. -/
theorem jsDateParseBounds {tz pd : Int} {s : String}
    (h : jsDateParse tz s = some pd) (hshape : plainDateShape s = true)
    (hlo : -720 ≤ tz) (hhi : tz ≤ 840) :
    102267840 ≤ pd / 1440 ∧ pd / 1440 ≤ 105920264 := by
  unfold jsDateParse at h
  split at h
  · rename_i d0 hexp
    have hfalse := expandedYearNotPlain hexp
    rw [hshape] at hfalse
    cases hfalse
  · split at h
    · rename_i ys ms ds heq
      split at h
      · split at h
        · split at h
          · rename_i hdig hshape4 hrange
            injection h with h
            have hda : allDigits ys = true := by
              simp only [Bool.and_eq_true] at hdig
              exact hdig.1.1
            have hy : digitsToNat ys ≤ 9999 := digitsToNatLe9999 hda hshape4.1
            obtain ⟨hb1, hb2, _⟩ := daysFromCivilNBounds (digitsToNat ys)
              (digitsToNat ms) (digitsToNat ds) hy
              hrange.1 hrange.2.1 hrange.2.2.1 hrange.2.2.2
            omega
          · exact Option.noConfusion h
        · split at h
          · split at h
            · rename_i hdig hshape1 hshape2 hrange
              injection h with h
              have hda : allDigits ys = true := by
                simp only [Bool.and_eq_true] at hdig
                exact hdig.1.1
              have hy : digitsToNat ys ≤ 9999 :=
                digitsToNatLe9999 hda hshape2.1
              have hd31 : digitsToNat ds ≤ 31 :=
                le_trans hrange.2.2.2.2 (daysInMonthLe31 _ _)
              obtain ⟨hb1, hb2, hb3⟩ := daysFromCivilNBounds (digitsToNat ys)
                (digitsToNat ms) (digitsToNat ds) hy
                hrange.2.1 hrange.2.2.1 hrange.2.2.2.1 hd31
              have hb3' := hb3 hrange.1
              omega
            · exact Option.noConfusion h
          · exact Option.noConfusion h
      · exact Option.noConfusion h
    · exact Option.noConfusion h

/-- The stored date always satisfies the `YYYY-MM-DD` invariant when the
instant lies in the plain-shape band. -/
theorem toISODateFormat {pd : Int} (h1 : 102267840 ≤ pd / 1440)
    (h2 : pd / 1440 ≤ 105920264) : dateFormatOk (toISODate pd) = true := by
  simp only [toISODate]
  have hud1 : 102267840 ≤ (pd / 1440).toNat := by omega
  have hud2 : (pd / 1440).toNat ≤ 105920264 := by omega
  obtain ⟨hy1, hy2⟩ := civilYearBounds _ hud1 hud2
  rw [if_pos (by constructor <;> omega)]
  simp only [pad4l, pad2l, List.cons_append, List.nil_append]
  simp [dateFormatOk, digitCharIsDigit]

/-- The events this record was derived from: concrete instantiations. -/
def prevEvent : EventRecord :=
  { baseEvent with
    title := "Old", slug := some "old"
    date := "1999-12-31", time := "12:00" }

/-- `baseEvent` with the minutes written with one digit. -/
def nine5Event : EventRecord := { baseEvent with time := "9:5" }

/-- `baseEvent` with an out-of-range hour. -/
def twentyFourEvent : EventRecord := { baseEvent with time := "24:00" }

/-- `baseEvent` with a non-zero-padded date. -/
def looseDateEvent : EventRecord := { baseEvent with date := "2025-1-5" }

/-- `baseEvent` with an unparsable date. -/
def badDateEvent : EventRecord := { baseEvent with date := "not-a-date" }

/-- `baseEvent` with a normalizable date but an invalid time. -/
def badTimeGoodDateEvent : EventRecord :=
  { baseEvent with date := "2025-1-5", time := "24:00" }

/-- `baseEvent` carrying an empty (JavaScript-falsy) slug. -/
def emptySlugEvent : EventRecord := { baseEvent with slug := some "" }

/-- An already-slugged Event whose description (only) was rewritten. -/
def keptSlugEvent : EventRecord :=
  { baseEvent with
    slug := some "my-event"
    description := "A new description" }

/-- The stored form of `keptSlugEvent` after a write that does not touch the
title. -/
def keptSlugOut : EventRecord := { keptSlugEvent with time := "09:05" }

/-- `baseEvent` with whitespace around the time. -/
def wsTimeEvent : EventRecord := { baseEvent with time := " 9:05 " }

/-- The stored form of `baseEvent` after a successful creation. -/
def baseEventOut : EventRecord :=
  { baseEvent with time := "09:05", slug := some "my-event" }

/-- A storage gateway on which every identifier resolves. -/
def allExists : Nat → Bool := fun _ => true

/-- A storage gateway on which no identifier resolves. -/
def missingAll : Nat → Bool := fun _ => false

/-- A Booking with untrimmed mixed-case email. -/
def okBooking : BookingRecord := { eventId := some 1, email := "  FOO@BAR.com " }

/-- A Booking whose email has no `@`. -/
def badEmailBooking : BookingRecord :=
  { eventId := some 1, email := "not-an-email" }

/-- A well-formed Booking. -/
def fineBooking : BookingRecord := { eventId := some 1, email := "a@b.co" }

/-- A Booking with no event reference. -/
def noIdBooking : BookingRecord := { eventId := none, email := "a@b.co" }

/-- A previously persisted Booking. -/
def prevBooking : BookingRecord := { eventId := some 7, email := "x@y.zz" }

/-- The path setters do not touch `eventId`. -/
theorem applySettersId (r : BookingRecord) :
    (applySetters r).eventId = r.eventId := rfl

/-- The three format failures of the Booking validator, each independent of
the storage gateway. -/
theorem bookingSaveMalformed (ex : Nat → Bool) (r : BookingRecord) :
    (r.eventId = none → bookingSave ex r = .error (.missingField "eventId")) ∧
    (∀ eid, r.eventId = some eid → nonBlank (applySetters r).email = false →
      bookingSave ex r = .error (.missingField "email")) ∧
    (∀ eid, r.eventId = some eid → nonBlank (applySetters r).email = true →
      isValidEmail (applySetters r).email = false →
      bookingSave ex r = .error BookingErr.invalidEmail) := by
  refine ⟨?_, ?_, ?_⟩
  · intro hid
    simp [bookingSave, bookingPreSave, applySettersId, hid]
  · intro eid hid hb
    simp [bookingSave, bookingPreSave, applySettersId, hid, hb]
  · intro eid hid hb hv
    simp [bookingSave, bookingPreSave, applySettersId, hid, hb, hv]

/-- C5: a Booking write with an absent `eventId`, a blank email, or an email
failing the pattern fails with `MissingField` or `InvalidEmail` respectively,
and its outcome is identical under every storage gateway: the `exists`
query is never consulted for a malformed request. -/
theorem claimC5 (ex ex' : Nat → Bool) (r : BookingRecord)
    (hbad : r.eventId = none ∨ nonBlank (applySetters r).email = false ∨
      isValidEmail (applySetters r).email = false) :
    bookingSave ex r = bookingSave ex' r ∧
    (∃ e, bookingSave ex r = .error e) ∧
    (r.eventId = none → bookingSave ex r = .error (.missingField "eventId")) ∧
    (∀ eid, r.eventId = some eid → nonBlank (applySetters r).email = false →
      bookingSave ex r = .error (.missingField "email")) ∧
    (∀ eid, r.eventId = some eid → nonBlank (applySetters r).email = true →
      isValidEmail (applySetters r).email = false →
      bookingSave ex r = .error BookingErr.invalidEmail) := by
  obtain ⟨m1, m2, m3⟩ := bookingSaveMalformed ex r
  obtain ⟨n1, n2, n3⟩ := bookingSaveMalformed ex' r
  have heq : bookingSave ex r = bookingSave ex' r ∧
      ∃ e, bookingSave ex r = .error e := by
    cases hid : r.eventId with
    | none => exact ⟨(m1 hid).trans (n1 hid).symm, _, m1 hid⟩
    | some eid =>
      rcases hbad with hb | hb | hb
      · rw [hid] at hb; cases hb
      · exact ⟨(m2 eid hid hb).trans (n2 eid hid hb).symm, _, m2 eid hid hb⟩
      · by_cases hnb : nonBlank (applySetters r).email = true
        · exact ⟨(m3 eid hid hnb hb).trans (n3 eid hid hnb hb).symm,
            _, m3 eid hid hnb hb⟩
        · have hnb' : nonBlank (applySetters r).email = false := by
            revert hnb; cases nonBlank (applySetters r).email <;> simp
          exact ⟨(m2 eid hid hnb').trans (n2 eid hid hnb').symm,
            _, m2 eid hid hnb'⟩
  exact ⟨heq.1, heq.2, m1, m2, m3⟩

/-- C5 witness at a Booking with no `eventId`, against two different
gateways. -/
theorem claimC5Witness :
    bookingSave allExists noIdBooking = bookingSave missingAll noIdBooking ∧
    (∃ e, bookingSave allExists noIdBooking = .error e) ∧
    (noIdBooking.eventId = none →
      bookingSave allExists noIdBooking = .error (.missingField "eventId")) ∧
    (∀ eid, noIdBooking.eventId = some eid →
      nonBlank (applySetters noIdBooking).email = false →
      bookingSave allExists noIdBooking = .error (.missingField "email")) ∧
    (∀ eid, noIdBooking.eventId = some eid →
      nonBlank (applySetters noIdBooking).email = true →
      isValidEmail (applySetters noIdBooking).email = false →
      bookingSave allExists noIdBooking = .error BookingErr.invalidEmail) :=
  claimC5 allExists missingAll noIdBooking (Or.inl rfl)

/-- C6: a Booking whose `eventId` does not resolve through the `exists`
query is never committed: the write fails, the durable state is unchanged,
and when the format checks pass the failure is `DanglingReference`. -/
theorem claimC6 (st : Option BookingRecord) (ex : Nat → Bool)
    (r : BookingRecord) (eid : Nat) (hid : r.eventId = some eid)
    (hex : ex eid = false) :
    (∀ b, bookingSave ex r ≠ .ok b) ∧ commitBooking st ex r = st ∧
    (nonBlank (applySetters r).email = true →
      isValidEmail (applySetters r).email = true →
      bookingSave ex r = .error (.danglingReference "eventId")) := by
  obtain ⟨m1, m2, m3⟩ := bookingSaveMalformed ex r
  have key : ∃ e, bookingSave ex r = .error e ∧
      (nonBlank (applySetters r).email = true →
        isValidEmail (applySetters r).email = true →
        e = .danglingReference "eventId") := by
    by_cases hnb : nonBlank (applySetters r).email = true
    · by_cases hv : isValidEmail (applySetters r).email = true
      · refine ⟨.danglingReference "eventId", ?_, fun _ _ => rfl⟩
        simp [bookingSave, bookingPreSave, applySettersId, hid, hnb, hv, hex]
      · have hv' : isValidEmail (applySetters r).email = false := by
          revert hv; cases isValidEmail (applySetters r).email <;> simp
        refine ⟨.invalidEmail, m3 eid hid hnb hv', fun _ hv2 => ?_⟩
        rw [hv'] at hv2
        cases hv2
    · have hnb' : nonBlank (applySetters r).email = false := by
        revert hnb; cases nonBlank (applySetters r).email <;> simp
      refine ⟨.missingField "email", m2 eid hid hnb', fun hnb2 _ => ?_⟩
      rw [hnb'] at hnb2
      cases hnb2
  obtain ⟨e, herr, hkind⟩ := key
  refine ⟨?_, ?_, ?_⟩
  · intro b hb
    rw [herr] at hb
    cases hb
  · simp [commitBooking, herr]
  · intro h1 h2
    rw [herr, hkind h1 h2]

/-- C6 witness: a well-formed Booking against a gateway with no Events. -/
theorem claimC6Witness :
    (∀ b, bookingSave missingAll fineBooking ≠ .ok b) ∧
    commitBooking (some prevBooking) missingAll fineBooking =
      some prevBooking ∧
    (nonBlank (applySetters fineBooking).email = true →
      isValidEmail (applySetters fineBooking).email = true →
      bookingSave missingAll fineBooking =
        .error (.danglingReference "eventId")) :=
  claimC6 (some prevBooking) missingAll fineBooking 1 rfl rfl

/-- C9: a Booking with email `"  FOO@BAR.com "` and a resolving `eventId`
commits with the trimmed lowercased email `"foo@bar.com"` stored; the email
`"not-an-email"` makes the write fail with `InvalidEmail`. -/
theorem claimC9 :
    emailAfter allExists okBooking = some "foo@bar.com" ∧
    commitBooking none allExists okBooking =
      some { eventId := some 1, email := "foo@bar.com" } ∧
    bookingErrAfter allExists badEmailBooking =
      some BookingErr.invalidEmail :=
  ⟨rfl, rfl, rfl⟩

/-- A time that matches the regex after trimming is not blank. -/
theorem timeMatchNonBlank {s : String} {p : Nat × Nat}
    (h : timeMatch (jsTrim s) = some p) : nonBlank s = true := by
  unfold timeMatch at h
  cases hd : (jsTrim s).data with
  | nil =>
    rw [hd] at h
    simp at h
  | cons c cs =>
    have hdl : jsTrimL s.data = c :: cs := hd
    simp [nonBlank, hdl]

/-- With every assertion condition true, the assert block succeeds. -/
theorem checkEventFieldsOk {r : EventRecord}
    (h1 : nonBlank r.title = true) (h2 : nonBlank r.description = true)
    (h3 : nonBlank r.overview = true) (h4 : nonBlank r.image = true)
    (h5 : nonBlank r.venue = true) (h6 : nonBlank r.location = true)
    (h7 : nonBlank r.date = true) (h8 : nonBlank r.time = true)
    (h9 : nonBlank r.mode = true) (h10 : nonBlank r.audience = true)
    (h11 : nonBlank r.organizer = true) (h12 : goodArray r.agenda = true)
    (h13 : goodArray r.tags = true) : checkEventFields r = .ok () := by
  simp [checkEventFields, assertNonEmptyString, assertNonEmptyStringArray,
    h1, h2, h3, h4, h5, h6, h7, h8, h9, h10, h11, h12, h13,
    Bind.bind, Except.bind]

/-- C1 counterexample: with every other field valid, `time = "9:5"` does not
commit at all — the regex requires two minute digits, so the write fails
with `InvalidTime` rather than storing `"09:05"`. -/
theorem claimC1Cex :
    eventErrAfter 0 true nine5Event = some EventErr.invalidTime := rfl

/-- C1 (amended): `time = "9:5"` fails with `InvalidTime` (the minutes must
be exactly two digits); `time = "9:05"` commits and stores `"09:05"`;
`time = "24:00"` fails with `InvalidTime`. -/
theorem claimC1 :
    eventErrAfter 0 true nine5Event = some EventErr.invalidTime ∧
    timeAfter 0 true baseEvent = some "09:05" ∧
    eventErrAfter 0 true twentyFourEvent = some EventErr.invalidTime :=
  ⟨rfl, rfl, rfl⟩

/-- C2: whenever the Event validator fails, the commit is aborted and the
durable state — in particular any previously stored `date` — is exactly what
it was before the write; no partially normalized record is persisted. -/
theorem claimC2 (st : Option EventRecord) (tz : Int) (tm : Bool)
    (r : EventRecord) (e : EventErr) (h : preSave tz tm r = .error e) :
    commitEvent st tz tm r = st := by
  simp [commitEvent, h]

/-- C2 witness: a record whose date normalizes but whose time is invalid
leaves the stored record untouched. -/
theorem claimC2Witness :
    commitEvent (some prevEvent) 0 true badTimeGoodDateEvent =
      some prevEvent :=
  claimC2 (some prevEvent) 0 true badTimeGoodDateEvent
    EventErr.invalidTime rfl

/-- C3 counterexample: in a runtime east of UTC (offset +60 minutes), a
commit with `date = "2025-1-5"` succeeds but stores `"2025-01-04"`, not
`"2025-01-05"` — the lenient parse is in local time while the canonical
form is taken in UTC. -/
theorem claimC3Cex :
    dateAfter 60 true looseDateEvent = some "2025-01-04" ∧
    dateAfter 60 true looseDateEvent ≠ some "2025-01-05" :=
  ⟨rfl, by decide⟩

/-- C3 (amended): with `date = "2025-1-5"` a successful commit stores
`"2025-01-05"` when the runtime's UTC offset is zero (or west of UTC), but
`"2025-01-04"` east of UTC; and whenever the date fails to parse, the
commit fails with `InvalidDate`. -/
theorem claimC3 :
    dateAfter 0 true looseDateEvent = some "2025-01-05" ∧
    dateAfter 60 true looseDateEvent = some "2025-01-04" ∧
    (∀ (tz : Int) (tm : Bool) (r : EventRecord),
      nonBlank r.title = true → nonBlank r.description = true →
      nonBlank r.overview = true → nonBlank r.image = true →
      nonBlank r.venue = true → nonBlank r.location = true →
      nonBlank r.date = true → nonBlank r.time = true →
      nonBlank r.mode = true → nonBlank r.audience = true →
      nonBlank r.organizer = true → goodArray r.agenda = true →
      goodArray r.tags = true → jsDateParse tz r.date = none →
      preSave tz tm r = .error .invalidDate) := by
  refine ⟨rfl, rfl, ?_⟩
  intro tz tm r h1 h2 h3 h4 h5 h6 h7 h8 h9 h10 h11 h12 h13 hdate
  have hchk := checkEventFieldsOk h1 h2 h3 h4 h5 h6 h7 h8 h9 h10 h11 h12 h13
  simp [preSave, hchk, normalizeDate, hdate, Bind.bind, Except.bind]

/-- C3 witness: an unparsable date on an otherwise valid record fails with
`InvalidDate`. -/
theorem claimC3Witness : preSave 0 true badDateEvent = .error .invalidDate :=
  claimC3.2.2 0 true badDateEvent rfl rfl rfl rfl rfl rfl rfl rfl rfl rfl rfl
    rfl rfl rfl

/-- C4 counterexample: a write that does not modify the title but carries
the empty-string slug still recomputes the slug (the hook tests JavaScript
falsiness, and `""` is falsy), so the slug is not left untouched. -/
theorem claimC4Cex :
    emptySlugEvent.slug = some "" ∧
    slugAfter 0 false emptySlugEvent = some (some "my-event") :=
  ⟨rfl, rfl⟩

/-- C4 (amended): the slug is recomputed as `slugify(title)` exactly when
the title was modified in this write or no non-empty slug currently exists
(an absent slug and an empty slug both trigger recomputation), and is left
untouched otherwise; creating with title `"My Event"` and no slug stores
`slug = "my-event"`, and an update changing only the description leaves the
slug unchanged. -/
theorem claimC4 :
    (∀ (tz : Int) (tm : Bool) (r r' : EventRecord),
      preSave tz tm r = .ok r' →
      r'.slug = (if (tm || slugFalsy r.slug) = true
        then some (slugify r.title) else r.slug)) ∧
    slugAfter 0 true baseEvent = some (some "my-event") ∧
    slugAfter 0 false keptSlugEvent = some (some "my-event") := by
  refine ⟨?_, rfl, rfl⟩
  intro tz tm r r' hok
  obtain ⟨pd, h, m, _, _, _, _, _, _, hslug, _⟩ := preSaveOkInv hok
  exact hslug

/-- C4 witness: a description-only update of an already-slugged Event. -/
theorem claimC4Witness :
    keptSlugOut.slug = (if (false || slugFalsy keptSlugEvent.slug) = true
      then some (slugify keptSlugEvent.title) else keptSlugEvent.slug) :=
  claimC4.1 0 false keptSlugEvent keptSlugOut rfl

/-- `baseEvent` with an ECMA-262 expanded-year date, which `new Date`
accepts (year 10000, midnight UTC). -/
def expandedYearEvent : EventRecord :=
  { baseEvent with date := "+010000-01-01" }

/-- The stored-format invariant does hold for every commit whose date input
has the unsigned all-digit shape, under a real-world UTC offset.  (This is
the largest true restriction of C7: expanded-year inputs escape it.) -/
theorem storedDatePlainFormat (tz : Int) (tm : Bool) (r r' : EventRecord)
    (hlo : -720 ≤ tz) (hhi : tz ≤ 840)
    (hshape : plainDateShape r.date = true)
    (hok : preSave tz tm r = .ok r') :
    dateFormatOk r'.date = true ∧ timeFormatOk r'.time = true := by
  obtain ⟨pd, h, m, hpd, _, hh, hm2, hdate, htime, _, _⟩ := preSaveOkInv hok
  rw [hdate, htime]
  obtain ⟨hb1, hb2⟩ := jsDateParseBounds hpd hshape hlo hhi
  exact ⟨toISODateFormat hb1 hb2, timeFormatOkTimeString hh hm2⟩

/-- C7: the claimed invariant fails on the program.  With every other field
valid and `date = "+010000-01-01"` — a string the runtime's `Date` parser
accepts — the commit succeeds and stores `toISOString().slice(0, 10)` of an
expanded-year instant, namely `"+010000-01"`, which does not match
`^\d{4}-\d{2}-\d{2}$`; the code's own comment promises the `YYYY-MM-DD`
format it here fails to keep. -/
theorem claimC7 :
    dateAfter 0 true expandedYearEvent = some "+010000-01" ∧
    dateFormatOk "+010000-01" = false :=
  ⟨rfl, by decide⟩

/-- C8: `slugify` coincides on every string with the specification's
algorithm (lowercase, trim, replace each maximal run outside `[a-z0-9]` by
one dash, strip edge dashes), and the worked example holds. -/
theorem claimC8 :
    (∀ s : String, slugify s = slugifySpec s) ∧
    slugify "Annual Tech Summit 2025!" = "annual-tech-summit-2025" := by
  refine ⟨?_, by decide⟩
  intro s
  unfold slugify slugifySpec
  congr 1
  rw [slugCoreFalseEq, slugCoreTrueEq]
  exact stripEdgesEq _

/-- C10: any time whose trimmed form matches `H:MM`/`HH:MM` within range is
accepted (other fields being valid), and the stored value is the zero-padded
`HH:MM` with no surrounding whitespace: the hook trims before matching. -/
theorem claimC10 (tz : Int) (tm : Bool) (r : EventRecord) (h m : Nat)
    (h1 : nonBlank r.title = true) (h2 : nonBlank r.description = true)
    (h3 : nonBlank r.overview = true) (h4 : nonBlank r.image = true)
    (h5 : nonBlank r.venue = true) (h6 : nonBlank r.location = true)
    (h7 : nonBlank r.date = true) (h9 : nonBlank r.mode = true)
    (h10 : nonBlank r.audience = true) (h11 : nonBlank r.organizer = true)
    (h12 : goodArray r.agenda = true) (h13 : goodArray r.tags = true)
    (hdate : jsDateParse tz r.date ≠ none)
    (htime : timeMatch (jsTrim r.time) = some (h, m))
    (hh : h ≤ 23) (hm2 : m ≤ 59) :
    timeAfter tz tm r = some (timeString h m) ∧
    timeFormatOk (timeString h m) = true := by
  have h8 : nonBlank r.time = true := timeMatchNonBlank htime
  obtain ⟨pd, hpd⟩ : ∃ pd, jsDateParse tz r.date = some pd := by
    cases hj : jsDateParse tz r.date with
    | none => exact absurd hj hdate
    | some v => exact ⟨v, rfl⟩
  have hchk := checkEventFieldsOk h1 h2 h3 h4 h5 h6 h7 h8 h9 h10 h11 h12 h13
  have hrange : ¬(23 < h ∨ 59 < m) := by omega
  refine ⟨?_, timeFormatOkTimeString hh hm2⟩
  simp [timeAfter, preSave, hchk, normalizeDate, hpd, normalizeTime, htime,
    hrange, updateSlugTime, Bind.bind, Except.bind]

/-- C10 witness: `time = " 9:05 "` commits and stores `"09:05"`. -/
theorem claimC10Witness :
    timeAfter 0 true wsTimeEvent = some (timeString 9 5) ∧
    timeFormatOk (timeString 9 5) = true :=
  claimC10 0 true wsTimeEvent 9 5 rfl rfl rfl rfl rfl rfl rfl rfl rfl rfl rfl
    rfl (by decide) rfl (by decide) (by decide)

end DevEvents
